import Mathlib

/-!
Verification of the BP terminal-gate-pricing processor.

A shallow embedding of `process_bp_pricing.py`: the spreadsheet parser
`parse_bp_pricing` (a stateful forward scan over a cell grid) and the
history-reconciliation / snapshot pipeline of `main`, together with proofs
of the specification's claims about them.

Modelling conventions:
* A spreadsheet cell is `empty` (pandas `NaN` / `None`, i.e. `pd.isna` is
  true), a text cell, a date/timestamp cell, or a numeric cell.  Python
  floats are modelled as rationals (`Rat`); every numeric literal appearing
  in the claims is a short decimal, on which the two agree.
* A calendar date is modelled as a natural number such that the numeric
  order agrees with calendar order (e.g. the encoding `y*10000+m*100+d`
  produced by `mkDate`); `Cell.date d` stands for a pandas `Timestamp` or
  `datetime` whose `.date()` is `d` (the parser drops the time component).
* `datetime.now()` is injected as an explicit clock value `now : Nat`; all
  records of one run carry it as `scraped_timestamp`.
* The pandas data frame of the raw sheet is rectangular: every row is
  padded with `NaN` up to the sheet width, so reading a cell beyond a row's
  literal length yields `NaN`.  `getCell` models this padding.  The Python
  code accesses `row[2]` unconditionally once a row passed the first two
  checks, which raises `KeyError` when the sheet is narrower than three
  columns; `stepRow` models that raise (as `none`) via its `ncols` gate.
* Exceptions escaping `parse_bp_pricing` (Python `float(...)` raising on a
  non-numeric price cell, or the `KeyError` above) are modelled by the
  parser returning `none`; a normal return is `some records`.
-/

namespace BPPricing

/-- A calendar date, encoded as a natural number whose numeric order agrees
with calendar order (see `mkDate`). -/
abbrev Date := Nat

/-- Encode the calendar date `y-m-d`; numeric order on the encoding agrees
with calendar order for all real dates (`m ≤ 12`, `d ≤ 31`). -/
def mkDate (y m d : Nat) : Date := y * 10000 + m * 100 + d

/-- One spreadsheet cell, the tagged-variant value type of the raw grid:
empty (pandas `NaN`/`None`), a string, a date/timestamp, or a number. -/
inductive Cell where
  | empty
  | text (s : String)
  | date (d : Date)
  | num (q : Rat)
deriving DecidableEq, Repr

/-- `pd.isna` on a cell. -/
def isna : Cell → Bool
  | Cell.empty => true
  | _ => false

/-- Read cell `j` of a row; out-of-range reads give the `NaN` padding of
the rectangular data frame. -/
def getCell (row : List Cell) (j : Nat) : Cell := row.getD j Cell.empty

/-- `isinstance(x, str)`: the string content of a cell when it is a text
cell. -/
def cellTextOf : Cell → Option String
  | Cell.text s => some s
  | _ => none

/-- Python `str.strip()`: remove leading and trailing whitespace
(implemented structurally over the character list so that it evaluates
definitionally). -/
def pyStrip (s : String) : String :=
  String.mk (((s.data.dropWhile Char.isWhitespace).reverse.dropWhile
      Char.isWhitespace).reverse)

/-- Python `str.endswith(suffix)` (implemented structurally over the
character list). -/
def pyEndsWith (s suffix : String) : Bool :=
  List.isSuffixOf suffix.data s.data

/-- The normalized price record extracted from the sheet
(`data_records.append({...})` in `parse_bp_pricing`). -/
structure PriceRecord where
  state : String
  effective_date : Date
  terminal : String
  fuel_type : String
  price_cents_per_litre : Rat
  scraped_timestamp : Nat
deriving DecidableEq, Repr

/-- The `header_row` dict recorded when a column-header row is detected. -/
structure HeaderRow where
  date_col : Nat
  terminal_col : Nat
  fuel_cols : List (String × Nat)
deriving DecidableEq, Repr

/-- The mutable scan state of the forward pass: `current_state`,
`header_row` and the accumulated `data_records`. -/
structure ScanState where
  current_state : Option String
  header_row : Option HeaderRow
  records : List PriceRecord
deriving DecidableEq, Repr

/-- The fixed banner/legal-text lines that are never a state name. -/
def bannerLines : List String :=
  ["BP terminal gate pricing by state",
   "These prices are current and displayed in Australian cents per litre with GST included.",
   "Fuels are sold at temperature-corrected volumes as legislated by the federal government."]

/-- `str(x)` on a cell, as applied to the terminal column.  Text cells are
returned verbatim (the only case the developments below depend on); for
date and number cells only the downstream classification matters — their
Python rendering is a non-blank string different from `"nan"`, which the
canonical renderings used here are too.  `str` of the float `NaN` is
`"nan"`, but that case is unreachable: the caller tests `pd.isna` first. -/
def pyStr : Cell → String
  | Cell.empty => "nan"
  | Cell.text s => s
  | Cell.date d => toString d
  | Cell.num q => toString q

/-- ASCII decimal digit test. -/
def isAsciiDigit (c : Char) : Bool := decide ('0' ≤ c) && decide (c ≤ '9')

/-- The natural number denoted by a list of decimal digits. -/
def natOfDigits (cs : List Char) : Nat :=
  cs.foldl (fun n c => 10 * n + (c.toNat - 48)) 0

/-- Strip an optional leading sign; returns (isNegative, rest). -/
def splitSign : List Char → Bool × List Char
  | '+' :: cs => (false, cs)
  | '-' :: cs => (true, cs)
  | cs => (false, cs)

/-- Parse the mantissa of a Python float literal:
`digits`, `digits.digits?`, or `.digits`. -/
def parseMantissa (cs : List Char) : Option Rat :=
  let ip := cs.takeWhile isAsciiDigit
  let rest := cs.dropWhile isAsciiDigit
  match rest with
  | [] => if ip.isEmpty then none else some (natOfDigits ip : Rat)
  | '.' :: fp =>
    if fp.all isAsciiDigit && !(ip.isEmpty && fp.isEmpty) then
      some ((natOfDigits ip : Rat) + (natOfDigits fp : Rat) / ((10 : Rat) ^ fp.length))
    else none
  | _ => none

/-- Parse the optional exponent suffix `e±digits` of a float literal;
an empty suffix denotes exponent `0`. -/
def parseExponent : List Char → Option (Bool × Nat)
  | [] => some (false, 0)
  | e :: rest =>
    if e = 'e' ∨ e = 'E' then
      let p := splitSign rest
      if p.2.isEmpty || !p.2.all isAsciiDigit then none
      else some (p.1, natOfDigits p.2)
    else none

/-- Python `float(s)` for a string, modelled for finite decimal literals
(optional surrounding whitespace, optional sign, decimal mantissa, optional
decimal exponent).  The `inf`/`nan` literals and underscore digit
separators Python also accepts are not modelled; no input below uses them.
`none` models the `ValueError` raise. -/
def pyFloatOfString (s : String) : Option Rat :=
  let cs0 := (pyStrip s).toList
  let sg := splitSign cs0
  let mant := sg.2.takeWhile (fun c => !(c = 'e' || c = 'E'))
  let ex := sg.2.dropWhile (fun c => !(c = 'e' || c = 'E'))
  match parseMantissa mant, parseExponent ex with
  | some m, some (eneg, e) =>
    let v := if eneg then m / (10 : Rat) ^ e else m * (10 : Rat) ^ e
    some (if sg.1 then -v else v)
  | _, _ => none

/-- Python `float(x)` on a price cell: numbers convert to themselves,
strings go through `float(str)` (which may raise), a date/timestamp raises
`TypeError`.  An empty (`NaN`) cell never reaches this conversion — the
caller tests `pd.isna` first. -/
def pyFloatOfCell : Cell → Option Rat
  | Cell.empty => none
  | Cell.text s => pyFloatOfString s
  | Cell.date _ => none
  | Cell.num q => some q

/-- Insertion into the `fuel_cols` dict: a Python dict comprehension keeps
the first insertion position of a key but overwrites its value, so a later
column with the same (stripped) fuel name replaces an earlier one. -/
def dictInsert (m : List (String × Nat)) (k : String) (v : Nat) : List (String × Nat) :=
  if m.any (fun p => p.1 = k) then
    m.map (fun p => if p.1 = k then (k, v) else p)
  else m ++ [(k, v)]

/-- One step of the `fuel_cols` dict comprehension: include column `j`
when its cell is a (non-`NaN`) string, keyed by the stripped text. -/
def fuelColsStep (row : List Cell) (m : List (String × Nat)) (j : Nat) :
    List (String × Nat) :=
  match cellTextOf (getCell row j) with
  | some s => dictInsert m (pyStrip s) j
  | none => m

/-- Build the `fuel_cols` mapping of a header row:
`{row[j].strip(): j for j in range(3, len(row)) if not isna(row[j]) and isinstance(row[j], str)}`.
Cells of the rectangular frame beyond the row's literal length are `NaN`
and excluded by the `isna` test, so iterating up to the row's own length is
equivalent to iterating up to the sheet width. -/
def buildFuelCols (row : List Cell) : List (String × Nat) :=
  (List.range' 3 (row.length - 3)).foldl (fuelColsStep row) []

/-- Section-header shape: first cell is a string whose `strip()` is
non-blank and every other cell of the (rectangular) row is `NaN`. -/
def isSectionShape (row : List Cell) : Bool :=
  match cellTextOf (getCell row 0) with
  | some s0 => !(pyStrip s0 = "") && (row.drop 1).all isna
  | none => false

/-- Column-header shape: `isinstance(row[2], str) and row[2].strip() == 'Terminal'`. -/
def isHeaderShape (row : List Cell) : Bool :=
  match cellTextOf (getCell row 2) with
  | some s2 => pyStrip s2 = "Terminal"
  | none => false

/-- Data-row shape: `current_state and header_row and isinstance(row[0], (pd.Timestamp, datetime))`
(Python truthiness: `None` and the empty string are falsy). -/
def isDataShape (st : ScanState) (row : List Cell) : Bool :=
  (match st.current_state with
   | some s => !(s = "")
   | none => false)
  && st.header_row.isSome
  && (match getCell row 0 with
      | Cell.date _ => true
      | _ => false)

/-- The inner loop of a data row:
`for fuel, col_idx in header_row['fuel_cols'].items(): ...` — skip `NaN`
price cells, convert the rest with `float` (which may raise, modelled as
`none`), and emit one record per populated fuel column, in mapping order. -/
def emitFuels (now : Nat) (state : String) (d : Date) (terminal : String)
    (row : List Cell) : List (String × Nat) → Option (List PriceRecord)
  | [] => some []
  | (fuel, col) :: rest =>
    let price := getCell row col
    if isna price then emitFuels now state d terminal row rest
    else
      match pyFloatOfCell price with
      | none => none
      | some q =>
        match emitFuels now state d terminal row rest with
        | none => none
        | some l =>
          some ({ state := state, effective_date := d, terminal := terminal,
                  fuel_type := fuel, price_cents_per_litre := q,
                  scraped_timestamp := now } :: l)

/-- One iteration of the scan loop of `parse_bp_pricing` on one row.
`ncols` is the sheet width; `none` models an exception escaping the loop
(`KeyError` from `row[2]` on a sheet narrower than three columns, or
`float` raising on a price cell).  The branch order mirrors the Python
`continue` chain exactly. -/
def stepRow (ncols now : Nat) (st : ScanState) (row : List Cell) : Option ScanState :=
  if isna (getCell row 0) then some st
  else if isSectionShape row then
    match cellTextOf (getCell row 0) with
    | some s0 =>
      if bannerLines.contains s0 then some st
      else some { st with current_state := some (pyStrip s0) }
    | none => some st
  else if ncols < 3 then none
  else if isHeaderShape row then
    let hdr : HeaderRow := { date_col := 0, terminal_col := 2, fuel_cols := buildFuelCols row }
    some { st with header_row := some hdr }
  else
    match st.current_state, st.header_row, getCell row 0 with
    | some s, some hdr, Cell.date d =>
      if s = "" then some st
      else
        let tc := getCell row hdr.terminal_col
        if isna tc then some st
        else
          let t := pyStrip (pyStr tc)
          if t = "" ∨ t = "nan" then some st
          else
            match emitFuels now s d t row hdr.fuel_cols with
            | none => none
            | some new => some { st with records := st.records ++ new }
    | _, _, _ => some st

/-- Run the scan over the remaining rows. -/
def parseRows (ncols now : Nat) : ScanState → List (List Cell) → Option ScanState
  | st, [] => some st
  | st, row :: rest =>
    match stepRow ncols now st row with
    | none => none
    | some st' => parseRows ncols now st' rest

/-- Width of the rectangular data frame pandas builds from the sheet. -/
def gridWidth (grid : List (List Cell)) : Nat :=
  grid.foldl (fun w row => max w row.length) 0

/-- `parse_bp_pricing`: scan the grid and return the extracted records, or
`none` when an exception escapes the scan. -/
def parse_bp_pricing (now : Nat) (grid : List (List Cell)) : Option (List PriceRecord) :=
  (parseRows (gridWidth grid) now
      { current_state := none, header_row := none, records := [] } grid).map
    ScanState.records

/-! ## The history reconciler and orchestration of `main` -/

/-- The identity tuple of a price fact, the dedup subset of
`drop_duplicates(subset=['state', 'effective_date', 'terminal', 'fuel_type'])`. -/
def identityKey (r : PriceRecord) : String × Date × String × String :=
  (r.state, r.effective_date, r.terminal, r.fuel_type)

/-- All fields of a record except `scraped_timestamp`. -/
def stripTS (r : PriceRecord) : String × Date × String × String × Rat :=
  (r.state, r.effective_date, r.terminal, r.fuel_type, r.price_cents_per_litre)

/-- `drop_duplicates(subset=identity, keep='last')`: a row survives iff no
later row shares its identity tuple; surviving rows keep their relative
order. -/
def dropDupKeepLast : List PriceRecord → List PriceRecord
  | [] => []
  | r :: rs =>
    if rs.any (fun x => identityKey x = identityKey r) then dropDupKeepLast rs
    else r :: dropDupKeepLast rs

/-- The dedup merge of lines 107–108 of the source: concatenate existing
history and fresh records, then drop identity duplicates keeping the last. -/
def reconcile (existing incoming : List PriceRecord) : List PriceRecord :=
  dropDupKeepLast (existing ++ incoming)

/-- Ascending lexicographic lift: compare by `f` first, break ties with `rest`. -/
def lexAsc {α γ : Type} [LinearOrder γ] (f : α → γ) (rest : α → α → Prop) (a b : α) : Prop :=
  f a < f b ∨ (f a = f b ∧ rest a b)

/-- Descending lexicographic lift: compare by `f` downward first, break
ties with `rest`. -/
def lexDesc {α γ : Type} [LinearOrder γ] (f : α → γ) (rest : α → α → Prop) (a b : α) : Prop :=
  f b < f a ∨ (f a = f b ∧ rest a b)

instance lexAscDec {α γ : Type} [LinearOrder γ] (f : α → γ) (rest : α → α → Prop)
    [DecidableRel rest] : DecidableRel (lexAsc f rest) := fun _ _ => by
  unfold lexAsc; infer_instance

instance lexDescDec {α γ : Type} [LinearOrder γ] (f : α → γ) (rest : α → α → Prop)
    [DecidableRel rest] : DecidableRel (lexDesc f rest) := fun _ _ => by
  unfold lexDesc; infer_instance

/-- Final tie-break of both output orders: ascending `fuel_type`. -/
def fuelLe (a b : PriceRecord) : Prop := a.fuel_type ≤ b.fuel_type

instance : DecidableRel fuelLe := fun _ _ => by unfold fuelLe; infer_instance

/-- The history-file presentation order of line 113:
`sort_values(['state', 'effective_date', 'terminal', 'fuel_type'], ascending=[True, False, True, True])` —
ascending state, then descending effective date, then ascending terminal,
then ascending fuel type. -/
def histOrder : PriceRecord → PriceRecord → Prop :=
  lexAsc (fun r => r.state)
    (lexDesc (fun r => r.effective_date)
      (lexAsc (fun r => r.terminal) fuelLe))

/-- The snapshot order of line 122:
`sort_values(['state', 'terminal', 'fuel_type'])` — all ascending. -/
def snapOrder : PriceRecord → PriceRecord → Prop :=
  lexAsc (fun r => r.state) (lexAsc (fun r => r.terminal) fuelLe)

instance : DecidableRel histOrder := fun a b => by unfold histOrder; infer_instance

instance : DecidableRel snapOrder := fun a b => by unfold snapOrder; infer_instance

/-- `df_combined` of lines 105–110: dedup-merge with existing history when
a history file exists, otherwise the fresh records unchanged. -/
def combinedOf (history : Option (List PriceRecord)) (fresh : List PriceRecord) :
    List PriceRecord :=
  match history with
  | some h => reconcile h fresh
  | none => fresh

/-- The persisted history table: the merged records in the presentation
order of line 113 (`sort_values` is a stable sort by the given keys, as is
`List.insertionSort`). -/
def historyOut (history : Option (List PriceRecord)) (fresh : List PriceRecord) :
    List PriceRecord :=
  List.insertionSort histOrder (combinedOf history fresh)

/-- `df_combined['effective_date'].max()`. -/
def latestDate (l : List PriceRecord) : Date :=
  l.foldl (fun m r => max m r.effective_date) 0

/-- The Latest Snapshot of lines 119–122: restrict the combined table to
the rows whose effective date is the maximum, re-sorted in snapshot order. -/
def snapshotOf (combined : List PriceRecord) : List PriceRecord :=
  List.insertionSort snapOrder
    (combined.filter (fun r => r.effective_date = latestDate combined))

/-- The input-file filter of line 75: names ending in `.xlsx` but not in
`.html.xlsx`. -/
def xlsxCandidatesOf (files : List String) : List String :=
  files.filter (fun f => pyEndsWith f ".xlsx" && !pyEndsWith f ".html.xlsx")

/-- Whether the stored change-detection token matches the fresh digest:
`f.read().strip() == current_hash`, with `none` when the token file does
not exist. -/
def tokenMatches (tokenContent : Option String) (currentHash : String) : Bool :=
  match tokenContent with
  | some t => pyStrip t = currentHash
  | none => false

/-- One file write performed by `main`, in program order. -/
inductive FileWrite where
  | history (rows : List PriceRecord)
  | snapshot (rows : List PriceRecord)
  | token (content : String)
deriving DecidableEq, Repr

/-- The observable outcome of one run: the process exit code and the file
writes performed, in order. -/
structure RunResult where
  exitCode : Nat
  writes : List FileWrite
deriving DecidableEq, Repr

/-- The orchestration of `main`, as a function of its external inputs: the
directory listing, the fresh content digest of the selected input file, the
stored token (if the token file exists), the parsed rows of the history CSV
(if it exists), and the parser's output on the selected file.  File
discovery by newest creation time and MD5 hashing are external
collaborators; `currentHash` stands for the digest of the selected file. -/
def runMain (files : List String) (currentHash : String)
    (tokenContent : Option String) (history : Option (List PriceRecord))
    (parsed : List PriceRecord) : RunResult :=
  if (xlsxCandidatesOf files).isEmpty then { exitCode := 1, writes := [] }
  else if tokenMatches tokenContent currentHash then { exitCode := 0, writes := [] }
  else if parsed.isEmpty then { exitCode := 1, writes := [] }
  else
    let combined := historyOut history parsed
    { exitCode := 0,
      writes := [FileWrite.history combined,
                 FileWrite.snapshot (snapshotOf combined),
                 FileWrite.token currentHash] }

/-! ## Concrete inputs used by the claim theorems and witnesses -/

/-- The header recorded before the C4 witness row. -/
def c4Hdr : HeaderRow :=
  { date_col := 0, terminal_col := 2,
    fuel_cols := [("Unleaded 91", 3), ("Premium 95", 4), ("Diesel", 5)] }

/-- The scan state active at the C4 witness row. -/
def c4St : ScanState :=
  { current_state := some "Queensland", header_row := some c4Hdr, records := [] }

/-- The C4 witness data row: valid date, valid terminal, three fuel
columns of which the middle one is empty. -/
def c4Row : List Cell :=
  [Cell.date (mkDate 2024 1 10), Cell.empty, Cell.text "Eagle Farm",
   Cell.num (1899 / 10), Cell.empty, Cell.num (1955 / 10)]

/-- The two records the C4 witness row emits. -/
def c4Out : List PriceRecord :=
  [{ state := "Queensland", effective_date := mkDate 2024 1 10,
     terminal := "Eagle Farm", fuel_type := "Unleaded 91",
     price_cents_per_litre := 1899 / 10, scraped_timestamp := 0 },
   { state := "Queensland", effective_date := mkDate 2024 1 10,
     terminal := "Eagle Farm", fuel_type := "Diesel",
     price_cents_per_litre := 1955 / 10, scraped_timestamp := 0 }]

/-- Column `j` of `row` is a string cell whose stripped text is `name`. -/
def fuelCellNamed (row : List Cell) (j : Nat) (name : String) : Prop :=
  ∃ s, getCell row j = Cell.text s ∧ pyStrip s = name

/-- The identity tuple determined by a record's value tuple. -/
def keyOfVal (v : String × Date × String × String × Rat) :
    String × Date × String × String :=
  (v.1, v.2.1, v.2.2.1, v.2.2.2.1)

/-- The one-record history for the C9 witness. -/
def c9Hist : List PriceRecord :=
  [{ state := "Queensland", effective_date := mkDate 2024 1 10,
     terminal := "Eagle Farm", fuel_type := "Diesel",
     price_cents_per_litre := 1955, scraped_timestamp := 0 }]

/-- The incoming batch repeating the same fact, rescraped later. -/
def c9Inc : List PriceRecord :=
  [{ state := "Queensland", effective_date := mkDate 2024 1 10,
     terminal := "Eagle Farm", fuel_type := "Diesel",
     price_cents_per_litre := 1955, scraped_timestamp := 5 }]

/-- The scenario grid of the specification:
`[["Queensland", null, null], [null, null, "Terminal", "Unleaded 91", "Diesel"], [date(2024,1,10), null, "Eagle Farm", 189.9, 195.5]]`. -/
def scenarioGrid : List (List Cell) :=
  [[Cell.text "Queensland", Cell.empty, Cell.empty],
   [Cell.empty, Cell.empty, Cell.text "Terminal", Cell.text "Unleaded 91", Cell.text "Diesel"],
   [Cell.date (mkDate 2024 1 10), Cell.empty, Cell.text "Eagle Farm",
    Cell.num (1899 / 10), Cell.num (1955 / 10)]]

/-- The scenario grid with the one change that makes it parse: the
column-header row carries a non-null first cell (`"Effective Date"`, as in
the real sheet), so the empty-first-cell skip does not discard it. -/
def scenarioGridFixed : List (List Cell) :=
  [[Cell.text "Queensland", Cell.empty, Cell.empty],
   [Cell.text "Effective Date", Cell.empty, Cell.text "Terminal",
    Cell.text "Unleaded 91", Cell.text "Diesel"],
   [Cell.date (mkDate 2024 1 10), Cell.empty, Cell.text "Eagle Farm",
    Cell.num (1899 / 10), Cell.num (1955 / 10)]]

/-- A well-formed sheet whose single data row carries a non-numeric text in
its one fuel column: `float("price on application")` raises `ValueError`,
which propagates out of the parser. -/
def raisingGrid : List (List Cell) :=
  [[Cell.text "Queensland", Cell.empty, Cell.empty],
   [Cell.text "Effective Date", Cell.empty, Cell.text "Terminal", Cell.text "Diesel"],
   [Cell.date (mkDate 2024 1 10), Cell.empty, Cell.text "Eagle Farm",
    Cell.text "price on application"]]

/-! ## Helper lemmas on the dedup merge -/

theorem dropDupKeepLast_sublist (l : List PriceRecord) :
    List.Sublist (dropDupKeepLast l) l := by
  induction l with
  | nil => exact List.Sublist.refl []
  | cons r rs ih =>
    rw [dropDupKeepLast]
    split
    · exact ih.trans (List.sublist_cons_self r rs)
    · exact List.Sublist.cons₂ r ih

theorem dropDupKeepLast_subset {l : List PriceRecord} {r : PriceRecord}
    (h : r ∈ dropDupKeepLast l) : r ∈ l :=
  (dropDupKeepLast_sublist l).subset h

/-- No two survivors of the dedup share an identity tuple. -/
theorem dropDupKeepLast_nodup_keys (l : List PriceRecord) :
    ((dropDupKeepLast l).map identityKey).Nodup := by
  induction l with
  | nil => exact List.nodup_nil
  | cons r rs ih =>
    rw [dropDupKeepLast]
    split
    · exact ih
    · rename_i hany
      rw [List.map_cons, List.nodup_cons]
      refine ⟨?_, ih⟩
      intro hmem
      obtain ⟨x, hx, hxk⟩ := List.mem_map.mp hmem
      exact hany (List.any_eq_true.mpr
        ⟨x, dropDupKeepLast_subset hx, by simpa using hxk⟩)

/-- The key characterization of `drop_duplicates(keep='last')`: for every
identity tuple `k`, the survivors with identity `k` are exactly the *last*
record of the input carrying identity `k` (and none when `k` is absent). -/
theorem dropDupKeepLast_filter_key (l : List PriceRecord)
    (k : String × Date × String × String) :
    (dropDupKeepLast l).filter (fun r => identityKey r = k) =
      ((l.filter (fun r => identityKey r = k)).getLast?).toList := by
  induction l with
  | nil => rfl
  | cons r rs ih =>
    by_cases hany : (rs.any fun x => identityKey x = identityKey r) = true
    · by_cases hk : identityKey r = k
      · rw [dropDupKeepLast, if_pos hany, ih, List.filter_cons,
          if_pos (by simpa using hk)]
        obtain ⟨x, hxmem, hxk⟩ := List.any_eq_true.mp hany
        have hne : rs.filter (fun r => identityKey r = k) ≠ [] := by
          intro hnil
          have hxfil : x ∈ rs.filter (fun r => identityKey r = k) :=
            List.mem_filter.mpr ⟨hxmem, by
              have := of_decide_eq_true hxk
              simpa [hk] using this⟩
          rw [hnil] at hxfil
          cases hxfil
        cases hfil : rs.filter (fun r => identityKey r = k) with
        | nil => exact absurd hfil hne
        | cons b t => rw [List.getLast?_cons_cons]
      · rw [dropDupKeepLast, if_pos hany, ih, List.filter_cons,
          if_neg (by simpa using hk)]
    · have hnone : ∀ x ∈ rs, identityKey x ≠ identityKey r := by
        intro x hx hxk
        exact hany (List.any_eq_true.mpr ⟨x, hx, by simpa using hxk⟩)
      rw [dropDupKeepLast, if_neg hany]
      by_cases hk : identityKey r = k
      · have hfil : rs.filter (fun r => identityKey r = k) = [] := by
          rw [List.filter_eq_nil_iff]
          intro x hx hxk
          have hxk' := of_decide_eq_true hxk
          exact hnone x hx (by rw [hxk', hk])
        have hfil' : (dropDupKeepLast rs).filter (fun r => identityKey r = k) = [] := by
          rw [ih, hfil]; rfl
        rw [List.filter_cons, if_pos (by simpa using hk), hfil',
          List.filter_cons, if_pos (by simpa using hk), hfil]
        rfl
      · rw [List.filter_cons, if_neg (by simpa using hk), ih,
          List.filter_cons, if_neg (by simpa using hk)]

/-! ## Claim C1: last-write-wins dedup by identity tuple -/

/-- **C1.**  For every existing-history sequence and incoming sequence:
(1) the record kept for each identity tuple `k` is exactly the last record
with identity `k` in the concatenation `existing ++ incoming`; (2) the
reconciled output contains at most one record per identity tuple; (3) the
P2 instance — an existing record at price 100.0 and an incoming record of
the same identity at price 105.0 reconcile to exactly the incoming
record. -/
theorem claim_C1 :
    (∀ (existing incoming : List PriceRecord) (k : String × Date × String × String),
        (reconcile existing incoming).filter (fun r => identityKey r = k) =
          (((existing ++ incoming).filter (fun r => identityKey r = k)).getLast?).toList) ∧
    (∀ (existing incoming : List PriceRecord) (k : String × Date × String × String),
        ((reconcile existing incoming).filter (fun r => identityKey r = k)).length ≤ 1) ∧
    reconcile
        [{ state := "S", effective_date := mkDate 2024 1 10, terminal := "T",
           fuel_type := "F", price_cents_per_litre := 100, scraped_timestamp := 0 }]
        [{ state := "S", effective_date := mkDate 2024 1 10, terminal := "T",
           fuel_type := "F", price_cents_per_litre := 105, scraped_timestamp := 1 }] =
      [{ state := "S", effective_date := mkDate 2024 1 10, terminal := "T",
         fuel_type := "F", price_cents_per_litre := 105, scraped_timestamp := 1 }] := by
  refine ⟨fun e i k => dropDupKeepLast_filter_key (e ++ i) k, fun e i k => ?_, by rfl⟩
  unfold reconcile
  rw [dropDupKeepLast_filter_key (e ++ i) k]
  cases ((e ++ i).filter (fun r => identityKey r = k)).getLast? with
  | none => exact Nat.le_of_lt Nat.one_pos
  | some x => exact Nat.le_refl 1

/-! ## Claims C7 and C8: the run-level frame conditions -/

/-- **C7.**  When an input file is present, the token file exists, and its
stored content equals the freshly computed digest of the selected input
file (digests carry no surrounding whitespace, so stripping is the
identity), the run exits with code 0 and performs no writes at all: the
history file, snapshot file and token file are untouched. -/
theorem claim_C7 (files : List String) (currentHash : String) (tok : String)
    (history : Option (List PriceRecord)) (parsed : List PriceRecord)
    (hfiles : xlsxCandidatesOf files ≠ [])
    (htok : tok = currentHash) (hnows : pyStrip tok = tok) :
    runMain files currentHash (some tok) history parsed =
      { exitCode := 0, writes := [] } := by
  subst htok
  unfold runMain
  rw [if_neg (by simpa [List.isEmpty_iff] using hfiles)]
  rw [if_pos (by simp [tokenMatches, hnows])]

/-- **C7, witness** at a concrete run: one candidate file, a token whose
content is exactly the current digest — exit code 0, no writes. -/
theorem claim_C7_witness :
    (xlsxCandidatesOf ["prices.xlsx"] ≠ [] ∧
      "d41d8cd98f00b204e9800998ecf8427e" = "d41d8cd98f00b204e9800998ecf8427e" ∧
      pyStrip "d41d8cd98f00b204e9800998ecf8427e" = "d41d8cd98f00b204e9800998ecf8427e") ∧
    runMain ["prices.xlsx"] "d41d8cd98f00b204e9800998ecf8427e"
        (some "d41d8cd98f00b204e9800998ecf8427e") none [] =
      { exitCode := 0, writes := [] } :=
  ⟨⟨by decide, rfl, by decide⟩,
    claim_C7 _ _ _ none [] (by decide) rfl (by decide)⟩

/-- **C8.**  The two fatal conditions exit with code 1 and perform no
writes: (1) no candidate spreadsheet after the `.xlsx` / `.html.xlsx`
filter; (2) the file changed (no token match — digest mismatch or missing
token file) but the parser extracted zero records. -/
theorem claim_C8 (files : List String) (currentHash : String)
    (tokenContent : Option String) (history : Option (List PriceRecord))
    (parsed : List PriceRecord) :
    (xlsxCandidatesOf files = [] →
      runMain files currentHash tokenContent history parsed =
        { exitCode := 1, writes := [] }) ∧
    (tokenMatches tokenContent currentHash = false → parsed = [] →
      runMain files currentHash tokenContent history parsed =
        { exitCode := 1, writes := [] }) := by
  constructor
  · intro hempty
    unfold runMain
    rw [if_pos (by simp [hempty])]
  · intro htok hparsed
    unfold runMain
    by_cases hempty : (xlsxCandidatesOf files).isEmpty = true
    · rw [if_pos hempty]
    · rw [if_neg hempty, htok, if_neg (by simp), if_pos (by simp [hparsed])]

/-- **C8, witness** at two concrete fatal runs: a directory holding only an
excluded `.html.xlsx` file (NoInputFile), and a run with no token file and
an empty extraction (EmptyExtraction). -/
theorem claim_C8_witness :
    (xlsxCandidatesOf ["report.html.xlsx"] = [] ∧
      runMain ["report.html.xlsx"] "h" none none [] =
        { exitCode := 1, writes := [] }) ∧
    (tokenMatches none "h" = false ∧ ([] : List PriceRecord) = [] ∧
      runMain ["prices.xlsx"] "h" none none [] =
        { exitCode := 1, writes := [] }) :=
  ⟨⟨by decide, (claim_C8 ["report.html.xlsx"] "h" none none []).1 (by decide)⟩,
    ⟨rfl, rfl, (claim_C8 ["prices.xlsx"] "h" none none []).2 rfl rfl⟩⟩

/-! ## Totality and transitivity of the two output orders -/

theorem lexAsc_total {α γ : Type} [LinearOrder γ] (f : α → γ) (rest : α → α → Prop)
    (hrest : ∀ a b, rest a b ∨ rest b a) :
    ∀ a b, lexAsc f rest a b ∨ lexAsc f rest b a := by
  intro a b
  rcases lt_trichotomy (f a) (f b) with h | h | h
  · exact Or.inl (Or.inl h)
  · rcases hrest a b with hr | hr
    · exact Or.inl (Or.inr ⟨h, hr⟩)
    · exact Or.inr (Or.inr ⟨h.symm, hr⟩)
  · exact Or.inr (Or.inl h)

theorem lexAsc_trans {α γ : Type} [LinearOrder γ] (f : α → γ) (rest : α → α → Prop)
    (hrest : ∀ a b c, rest a b → rest b c → rest a c) :
    ∀ a b c, lexAsc f rest a b → lexAsc f rest b c → lexAsc f rest a c := by
  rintro a b c (h1 | ⟨e1, r1⟩) (h2 | ⟨e2, r2⟩)
  · exact Or.inl (h1.trans h2)
  · exact Or.inl (lt_of_lt_of_eq h1 e2)
  · exact Or.inl (lt_of_eq_of_lt e1 h2)
  · exact Or.inr ⟨e1.trans e2, hrest a b c r1 r2⟩

theorem lexDesc_total {α γ : Type} [LinearOrder γ] (f : α → γ) (rest : α → α → Prop)
    (hrest : ∀ a b, rest a b ∨ rest b a) :
    ∀ a b, lexDesc f rest a b ∨ lexDesc f rest b a := by
  intro a b
  rcases lt_trichotomy (f a) (f b) with h | h | h
  · exact Or.inr (Or.inl h)
  · rcases hrest a b with hr | hr
    · exact Or.inl (Or.inr ⟨h, hr⟩)
    · exact Or.inr (Or.inr ⟨h.symm, hr⟩)
  · exact Or.inl (Or.inl h)

theorem lexDesc_trans {α γ : Type} [LinearOrder γ] (f : α → γ) (rest : α → α → Prop)
    (hrest : ∀ a b c, rest a b → rest b c → rest a c) :
    ∀ a b c, lexDesc f rest a b → lexDesc f rest b c → lexDesc f rest a c := by
  rintro a b c (h1 | ⟨e1, r1⟩) (h2 | ⟨e2, r2⟩)
  · exact Or.inl (h2.trans h1)
  · exact Or.inl (lt_of_eq_of_lt e2.symm h1)
  · exact Or.inl (lt_of_lt_of_eq h2 e1.symm)
  · exact Or.inr ⟨e1.trans e2, hrest a b c r1 r2⟩

theorem fuelLe_total : ∀ a b, fuelLe a b ∨ fuelLe b a := fun a b =>
  le_total a.fuel_type b.fuel_type

theorem fuelLe_trans : ∀ a b c, fuelLe a b → fuelLe b c → fuelLe a c :=
  fun _ _ _ h1 h2 => le_trans h1 h2

instance : IsTotal PriceRecord histOrder :=
  ⟨lexAsc_total _ _ (lexDesc_total _ _ (lexAsc_total _ _ fuelLe_total))⟩

instance : IsTrans PriceRecord histOrder :=
  ⟨lexAsc_trans _ _ (lexDesc_trans _ _ (lexAsc_trans _ _ fuelLe_trans))⟩

instance : IsTotal PriceRecord snapOrder :=
  ⟨lexAsc_total _ _ (lexAsc_total _ _ fuelLe_total)⟩

instance : IsTrans PriceRecord snapOrder :=
  ⟨lexAsc_trans _ _ (lexAsc_trans _ _ fuelLe_trans)⟩

/-! ## Claims C5 and C6: snapshot correctness and output ordering -/

/-- Membership in the snapshot of a combined table: exactly the records
whose effective date is the maximum. -/
theorem mem_snapshotOf {l : List PriceRecord} {r : PriceRecord} :
    r ∈ snapshotOf l ↔ r ∈ l ∧ r.effective_date = latestDate l := by
  unfold snapshotOf
  rw [List.mem_insertionSort, List.mem_filter]
  simp

/-- The accumulator fold behind `latestDate`: the result dominates the
seed and every date in the list, and is attained by the seed or by some
list element. -/
theorem foldl_max_spec (l : List PriceRecord) (a : Nat) :
    a ≤ l.foldl (fun m r => max m r.effective_date) a ∧
    (∀ r ∈ l, r.effective_date ≤ l.foldl (fun m r => max m r.effective_date) a) ∧
    (l.foldl (fun m r => max m r.effective_date) a = a ∨
      ∃ r ∈ l, l.foldl (fun m r => max m r.effective_date) a = r.effective_date) := by
  induction l generalizing a with
  | nil => exact ⟨Nat.le_refl a, fun r hr => absurd hr (List.not_mem_nil r), Or.inl rfl⟩
  | cons x xs ih =>
    rw [List.foldl_cons]
    obtain ⟨hseed, hall, hattain⟩ := ih (max a x.effective_date)
    refine ⟨le_trans (le_max_left _ _) hseed, ?_, ?_⟩
    · intro r hr
      rcases List.mem_cons.mp hr with h | h
      · exact le_trans (h ▸ le_max_right a x.effective_date) hseed
      · exact hall r h
    · rcases hattain with h | ⟨r, hr, hrd⟩
      · rcases max_choice a x.effective_date with hm | hm
        · exact Or.inl (h.trans hm)
        · exact Or.inr ⟨x, List.mem_cons_self x xs, h.trans hm⟩
      · exact Or.inr ⟨r, List.mem_cons_of_mem x hr, hrd⟩

theorem le_latestDate {l : List PriceRecord} {r : PriceRecord} (h : r ∈ l) :
    r.effective_date ≤ latestDate l :=
  (foldl_max_spec l 0).2.1 r h

theorem latestDate_attained {l : List PriceRecord} (h : l ≠ []) :
    ∃ r ∈ l, r.effective_date = latestDate l := by
  rcases (foldl_max_spec l 0).2.2 with h0 | ⟨r, hr, hrd⟩
  · cases l with
    | nil => exact absurd rfl h
    | cons x xs =>
      refine ⟨x, List.mem_cons_self x xs, ?_⟩
      have hx : x.effective_date ≤ latestDate (x :: xs) :=
        le_latestDate (List.mem_cons_self x xs)
      have h0' : latestDate (x :: xs) = 0 := h0
      exact Nat.le_antisymm (h0' ▸ hx) (h0' ▸ Nat.zero_le x.effective_date)
  · exact ⟨r, hr, hrd.symm⟩

/-- **C5.**  For every reconciled record set (any history/fresh pair):
every snapshot record's effective date equals the maximum effective date of
the full combined set; every combined record carrying that maximum date is
in the snapshot; the maximum dominates every record and, when the set is
non-empty, is attained by one of them. -/
theorem claim_C5 (history : Option (List PriceRecord)) (fresh : List PriceRecord) :
    (∀ r ∈ snapshotOf (historyOut history fresh),
        r.effective_date = latestDate (historyOut history fresh)) ∧
    (∀ r ∈ historyOut history fresh,
        r.effective_date = latestDate (historyOut history fresh) →
          r ∈ snapshotOf (historyOut history fresh)) ∧
    (∀ r ∈ historyOut history fresh,
        r.effective_date ≤ latestDate (historyOut history fresh)) ∧
    (historyOut history fresh ≠ [] →
        ∃ r ∈ historyOut history fresh,
          r.effective_date = latestDate (historyOut history fresh)) :=
  ⟨fun _ hr => (mem_snapshotOf.mp hr).2,
   fun _ hr hd => mem_snapshotOf.mpr ⟨hr, hd⟩,
   fun _ hr => le_latestDate hr,
   fun hne => latestDate_attained hne⟩

/-- **C5, witness** at a one-record run: the single record is in the
snapshot and attains the maximum date. -/
theorem claim_C5_witness :
    ({ state := "Queensland", effective_date := mkDate 2024 1 10,
       terminal := "Eagle Farm", fuel_type := "Diesel",
       price_cents_per_litre := 105, scraped_timestamp := 1 } ∈
        snapshotOf (historyOut none
          [{ state := "Queensland", effective_date := mkDate 2024 1 10,
             terminal := "Eagle Farm", fuel_type := "Diesel",
             price_cents_per_litre := 105, scraped_timestamp := 1 }])) ∧
    (∃ r ∈ historyOut none
          [{ state := "Queensland", effective_date := mkDate 2024 1 10,
             terminal := "Eagle Farm", fuel_type := "Diesel",
             price_cents_per_litre := 105, scraped_timestamp := 1 }],
        r.effective_date = latestDate (historyOut none
          [{ state := "Queensland", effective_date := mkDate 2024 1 10,
             terminal := "Eagle Farm", fuel_type := "Diesel",
             price_cents_per_litre := 105, scraped_timestamp := 1 }])) :=
  ⟨(claim_C5 none _).2.1 _ (by decide) (by decide),
   (claim_C5 none _).2.2.2 (by decide)⟩

/-- **C6.**  The persisted history table is sorted by `histOrder` —
ascending state, then descending effective date, then ascending terminal,
then ascending fuel type — and the Latest Snapshot is sorted by
`snapOrder` — ascending state, then terminal, then fuel type. -/
theorem claim_C6 (history : Option (List PriceRecord)) (fresh : List PriceRecord) :
    List.Sorted histOrder (historyOut history fresh) ∧
    List.Sorted snapOrder (snapshotOf (historyOut history fresh)) :=
  ⟨List.sorted_insertionSort histOrder _, List.sorted_insertionSort snapOrder _⟩

/-! ## Claim C4: partial-row tolerance -/

/-- **C4.**  A data row under an active state and header whose mapping
holds three fuel columns, with a valid date in the first cell and a valid
terminal cell (text that strips to something non-blank, not `"nan"`, and
not `"Terminal"` — which would make the row a header row), and exactly one
of the three price cells empty, yields exactly two `PriceRecord`s — one per
populated fuel column, in mapping order, and none for the empty column —
whichever of the three positions the empty cell occupies. -/
theorem claim_C4 (ncols now : Nat) (st : ScanState) (row : List Cell)
    (s t : String) (d : Date) (hdr : HeaderRow)
    (f1 f2 f3 : String) (c1 c2 c3 : Nat)
    (hst : st.current_state = some s) (hs : s ≠ "")
    (hh : st.header_row = some hdr) (htc : hdr.terminal_col = 2)
    (hfc : hdr.fuel_cols = [(f1, c1), (f2, c2), (f3, c3)])
    (h0 : getCell row 0 = Cell.date d)
    (ht : getCell row 2 = Cell.text t)
    (ht1 : pyStrip t ≠ "") (ht2 : pyStrip t ≠ "nan") (ht3 : pyStrip t ≠ "Terminal")
    (hncols : 3 ≤ ncols) :
    (∀ p2 p3 : Rat, getCell row c1 = Cell.empty → getCell row c2 = Cell.num p2 →
        getCell row c3 = Cell.num p3 →
        stepRow ncols now st row = some { st with records := st.records ++
          [{ state := s, effective_date := d, terminal := pyStrip t, fuel_type := f2,
             price_cents_per_litre := p2, scraped_timestamp := now },
           { state := s, effective_date := d, terminal := pyStrip t, fuel_type := f3,
             price_cents_per_litre := p3, scraped_timestamp := now }] }) ∧
    (∀ p1 p3 : Rat, getCell row c1 = Cell.num p1 → getCell row c2 = Cell.empty →
        getCell row c3 = Cell.num p3 →
        stepRow ncols now st row = some { st with records := st.records ++
          [{ state := s, effective_date := d, terminal := pyStrip t, fuel_type := f1,
             price_cents_per_litre := p1, scraped_timestamp := now },
           { state := s, effective_date := d, terminal := pyStrip t, fuel_type := f3,
             price_cents_per_litre := p3, scraped_timestamp := now }] }) ∧
    (∀ p1 p2 : Rat, getCell row c1 = Cell.num p1 → getCell row c2 = Cell.num p2 →
        getCell row c3 = Cell.empty →
        stepRow ncols now st row = some { st with records := st.records ++
          [{ state := s, effective_date := d, terminal := pyStrip t, fuel_type := f1,
             price_cents_per_litre := p1, scraped_timestamp := now },
           { state := s, effective_date := d, terminal := pyStrip t, fuel_type := f2,
             price_cents_per_litre := p2, scraped_timestamp := now }] }) := by
  refine ⟨?_, ?_, ?_⟩ <;> intro pa pb hA hB hC <;>
    simp [stepRow, isSectionShape, isHeaderShape, h0, hst, hh, htc, ht, hfc, hs,
      ht1, ht2, ht3, Nat.not_lt.mpr hncols, emitFuels, hA, hB, hC, isna,
      cellTextOf, pyStr, pyFloatOfCell]

/-- **C4, witness** at a concrete data row whose middle fuel column is
empty: exactly the two records for the populated columns are emitted. -/
theorem claim_C4_witness :
    stepRow 6 0 c4St c4Row =
      some { current_state := some "Queensland", header_row := some c4Hdr,
             records := c4Out } := by
  have h := (claim_C4 6 0 c4St c4Row
    "Queensland" "Eagle Farm" (mkDate 2024 1 10) c4Hdr
    "Unleaded 91" "Premium 95" "Diesel" 3 4 5
    rfl (by decide) rfl rfl rfl rfl rfl (by decide) (by decide) (by decide)
    (by decide)).2.1 (1899 / 10) (1955 / 10) rfl rfl rfl
  exact h

/-! ## Claim C10: duplicate fuel headers and rightmost-column wins -/

/-- Membership in a dict insertion: the new pair, or an old pair with a
different key. -/
theorem mem_dictInsert {m : List (String × Nat)} {k : String} {v : Nat}
    {p : String × Nat} :
    p ∈ dictInsert m k v ↔ p = (k, v) ∨ (p ∈ m ∧ p.1 ≠ k) := by
  unfold dictInsert
  split
  · rename_i hany
    rw [List.mem_map]
    constructor
    · rintro ⟨q, hq, rfl⟩
      by_cases hqk : q.1 = k
      · rw [if_pos hqk]; exact Or.inl rfl
      · rw [if_neg hqk]; exact Or.inr ⟨hq, hqk⟩
    · rintro (rfl | ⟨hp, hpk⟩)
      · obtain ⟨q, hq, hqk⟩ := List.any_eq_true.mp hany
        exact ⟨q, hq, by rw [if_pos (of_decide_eq_true hqk)]⟩
      · exact ⟨p, hp, by rw [if_neg hpk]⟩
  · rename_i hany
    rw [List.mem_append, List.mem_singleton]
    constructor
    · rintro (hp | rfl)
      · exact Or.inr ⟨hp, fun hk =>
          hany (List.any_eq_true.mpr ⟨p, hp, by simp [hk]⟩)⟩
      · exact Or.inl rfl
    · rintro (rfl | ⟨hp, _⟩)
      · exact Or.inr rfl
      · exact Or.inl hp

theorem dictInsert_keys_nodup {m : List (String × Nat)}
    (h : (m.map Prod.fst).Nodup) (k : String) (v : Nat) :
    ((dictInsert m k v).map Prod.fst).Nodup := by
  unfold dictInsert
  split
  · have hkeys : (m.map fun p => if p.1 = k then (k, v) else p).map Prod.fst =
        m.map Prod.fst := by
      rw [List.map_map]
      refine List.map_congr_left ?_
      intro p _
      by_cases hpk : p.1 = k
      · simp [hpk]
      · simp [hpk]
    rw [hkeys]
    exact h
  · rename_i hany
    rw [List.map_append]
    refine List.Nodup.append h (List.nodup_singleton k) ?_
    intro a ha hb
    simp only [List.map_cons, List.map_nil, List.mem_singleton] at hb
    obtain ⟨q, hq, hqk⟩ := List.mem_map.mp ha
    exact hany (List.any_eq_true.mpr ⟨q, hq, by simp [hqk, hb]⟩)

theorem fuelColsStep_keys_nodup (row : List Cell) {m : List (String × Nat)}
    (h : (m.map Prod.fst).Nodup) (j : Nat) :
    (((fuelColsStep row m j).map Prod.fst)).Nodup := by
  unfold fuelColsStep
  split
  · exact dictInsert_keys_nodup h _ _
  · exact h

theorem foldl_fuelCols_keys_nodup (row : List Cell) (js : List Nat)
    (m : List (String × Nat)) (hm : (m.map Prod.fst).Nodup) :
    ((js.foldl (fuelColsStep row) m).map Prod.fst).Nodup := by
  induction js generalizing m with
  | nil => exact hm
  | cons j js ih => exact ih _ (fuelColsStep_keys_nodup row hm j)

/-- The fold characterization: every pair of the accumulated mapping either
was already in the seed and its key is never matched by a remaining column,
or it points at a remaining column whose cell carries its key, with no
later remaining column carrying the same key. -/
theorem foldl_fuelCols_mem (row : List Cell) (js : List Nat)
    (m : List (String × Nat)) (hjs : List.Pairwise (· < ·) js)
    (p : String × Nat) (hp : p ∈ js.foldl (fuelColsStep row) m) :
    (p ∈ m ∧ ∀ j ∈ js, ¬ fuelCellNamed row j p.1) ∨
    (p.2 ∈ js ∧ fuelCellNamed row p.2 p.1 ∧
      ∀ j ∈ js, p.2 < j → ¬ fuelCellNamed row j p.1) := by
  induction js generalizing m with
  | nil => exact Or.inl ⟨hp, fun j hj => absurd hj (List.not_mem_nil j)⟩
  | cons j js ih =>
    rw [List.foldl_cons] at hp
    have hlt : ∀ j' ∈ js, j < j' := fun j' hj' => (List.pairwise_cons.mp hjs).1 j' hj'
    rcases ih (fuelColsStep row m j) (List.pairwise_cons.mp hjs).2 hp with
      ⟨hpm, hrest⟩ | ⟨hmem, hnamed, hafter⟩
    · -- p survived the remaining fold untouched; analyze the single step
      unfold fuelColsStep at hpm
      revert hpm
      split
      · rename_i s hcell
        intro hpm
        rcases mem_dictInsert.mp hpm with rfl | ⟨hpm', hpk⟩
        · -- p is the pair inserted at column j
          refine Or.inr ⟨List.mem_cons_self j js, ⟨s, ?_, rfl⟩, ?_⟩
          · cases hc : getCell row j with
            | text s' => rw [hc] at hcell; cases hcell; rfl
            | empty => rw [hc] at hcell; cases hcell
            | date dd => rw [hc] at hcell; cases hcell
            | num q => rw [hc] at hcell; cases hcell
          · intro j' hj' hlt' hnamed'
            rcases List.mem_cons.mp hj' with rfl | hj'tail
            · exact Nat.lt_irrefl _ hlt'
            · exact hrest j' hj'tail hnamed'
        · refine Or.inl ⟨hpm', ?_⟩
          intro j' hj' hnamed'
          rcases List.mem_cons.mp hj' with rfl | hj'tail
          · obtain ⟨s', hc', hs'⟩ := hnamed'
            cases hc'' : getCell row j' with
            | text s2 =>
              rw [hc''] at hcell hc'
              cases hcell; cases hc'
              exact hpk hs'.symm
            | empty => rw [hc''] at hcell; cases hcell
            | date dd => rw [hc''] at hcell; cases hcell
            | num q => rw [hc''] at hcell; cases hcell
          · exact hrest j' hj'tail hnamed'
      · rename_i hcell
        intro hpm
        refine Or.inl ⟨hpm, ?_⟩
        intro j' hj' hnamed'
        rcases List.mem_cons.mp hj' with rfl | hj'tail
        · obtain ⟨s', hc', _⟩ := hnamed'
          rw [hc'] at hcell; cases hcell
        · exact hrest j' hj'tail hnamed'
    · -- p points into the remaining columns
      refine Or.inr ⟨List.mem_cons_of_mem j hmem, hnamed, ?_⟩
      intro j' hj' hlt' hnamed'
      rcases List.mem_cons.mp hj' with rfl | hj'tail
      · exact Nat.lt_irrefl j' (Nat.lt_trans (hlt _ hmem) hlt')
      · exact hafter j' hj'tail hlt' hnamed'

/-- Keys only accumulate along the fold. -/
theorem foldl_fuelCols_keys_mono (row : List Cell) (js : List Nat)
    (m : List (String × Nat)) {k : String}
    (hk : ∃ v, (k, v) ∈ m) :
    ∃ v, (k, v) ∈ js.foldl (fuelColsStep row) m := by
  induction js generalizing m with
  | nil => exact hk
  | cons j js ih =>
    rw [List.foldl_cons]
    refine ih _ ?_
    obtain ⟨v, hv⟩ := hk
    unfold fuelColsStep
    split
    · rename_i s hcell
      by_cases hkk : k = pyStrip s
      · exact ⟨j, mem_dictInsert.mpr (Or.inl (by rw [hkk]))⟩
      · exact ⟨v, mem_dictInsert.mpr (Or.inr ⟨hv, hkk⟩)⟩
    · exact ⟨v, hv⟩

/-- A column whose cell carries a name puts that name into the mapping. -/
theorem foldl_fuelCols_complete (row : List Cell) (js : List Nat) :
    ∀ (m : List (String × Nat)) {name : String} {j : Nat},
      j ∈ js → fuelCellNamed row j name →
      ∃ v, (name, v) ∈ js.foldl (fuelColsStep row) m := by
  induction js with
  | nil => intro m name j hj _; exact absurd hj (List.not_mem_nil j)
  | cons j0 js ih =>
    intro m name j hj hnamed
    rw [List.foldl_cons]
    rcases List.mem_cons.mp hj with rfl | hjtail
    · refine foldl_fuelCols_keys_mono row js _ ?_
      obtain ⟨s, hc, hs⟩ := hnamed
      refine ⟨j, ?_⟩
      unfold fuelColsStep
      rw [hc]
      exact mem_dictInsert.mpr (Or.inl (by rw [hs]))
    · exact ih _ hjtail hnamed

/-- One data row appends at most one record per fuel name: the new
records' fuel types form a sublist of the mapping's keys, and each new
record's field values come from the row as recorded. -/
theorem emitFuels_shape (now : Nat) (s : String) (d : Date) (t : String)
    (row : List Cell) :
    ∀ (fcs : List (String × Nat)) (new : List PriceRecord),
      emitFuels now s d t row fcs = some new →
      List.Sublist (new.map PriceRecord.fuel_type) (fcs.map Prod.fst) ∧
      ∀ r ∈ new, r.state = s ∧ r.effective_date = d ∧ r.terminal = t ∧
        r.scraped_timestamp = now ∧
        ∃ c, (r.fuel_type, c) ∈ fcs ∧
          pyFloatOfCell (getCell row c) = some r.price_cents_per_litre := by
  intro fcs
  induction fcs with
  | nil =>
    intro new hnew
    cases hnew
    exact ⟨List.Sublist.refl [], by simp⟩
  | cons fc rest ih =>
    intro new hnew
    obtain ⟨f, c⟩ := fc
    rw [emitFuels] at hnew
    by_cases hna : isna (getCell row c) = true
    · rw [if_pos hna] at hnew
      obtain ⟨hsub, hall⟩ := ih new hnew
      refine ⟨hsub.trans (List.sublist_cons_self f (rest.map Prod.fst)), ?_⟩
      intro r hr
      obtain ⟨h1, h2, h3, h4, cc, hcc, hq⟩ := hall r hr
      exact ⟨h1, h2, h3, h4, cc, List.mem_cons_of_mem _ hcc, hq⟩
    · rw [if_neg hna] at hnew
      revert hnew
      cases hfloat : pyFloatOfCell (getCell row c) with
      | none => intro hnew; cases hnew
      | some q =>
        cases hrest : emitFuels now s d t row rest with
        | none => intro hnew; cases hnew
        | some l =>
          intro hnew
          cases hnew
          obtain ⟨hsub, hall⟩ := ih l hrest
          constructor
          · exact List.Sublist.cons₂ f hsub
          · intro r hr
            rcases List.mem_cons.mp hr with rfl | hrl
            · exact ⟨rfl, rfl, rfl, rfl, c, List.mem_cons_self _ _, hfloat⟩
            · obtain ⟨h1, h2, h3, h4, cc, hcc, hq⟩ := hall r hrl
              exact ⟨h1, h2, h3, h4, cc, List.mem_cons_of_mem _ hcc, hq⟩

/-- Any successful scan step appends a block of records whose fuel types
repeat no name of a duplicate-free mapping. -/
theorem stepRow_new_records (ncols now : Nat) (st : ScanState) (row : List Cell)
    (st' : ScanState) (hdr : HeaderRow)
    (hh : st.header_row = some hdr)
    (hkeys : ((hdr.fuel_cols).map Prod.fst).Nodup)
    (hstep : stepRow ncols now st row = some st') :
    ∃ new, st'.records = st.records ++ new ∧
      (new.map PriceRecord.fuel_type).Nodup ∧
      ∀ r ∈ new, ∃ c, (r.fuel_type, c) ∈ hdr.fuel_cols ∧
        pyFloatOfCell (getCell row c) = some r.price_cents_per_litre := by
  unfold stepRow at hstep
  split at hstep
  · cases hstep; exact ⟨[], by simp, List.nodup_nil, by simp⟩
  · split at hstep
    · split at hstep
      · split at hstep
        · cases hstep; exact ⟨[], by simp, List.nodup_nil, by simp⟩
        · cases hstep; exact ⟨[], by simp, List.nodup_nil, by simp⟩
      · cases hstep; exact ⟨[], by simp, List.nodup_nil, by simp⟩
    · split at hstep
      · cases hstep
      · split at hstep
        · cases hstep; exact ⟨[], by simp, List.nodup_nil, by simp⟩
        · split at hstep
          · rename_i sv hdrv dv heq1 heq2 heq3
            rw [hh] at heq2
            obtain rfl : hdrv = hdr := (Option.some.inj heq2).symm
            split at hstep
            · cases hstep; exact ⟨[], by simp, List.nodup_nil, by simp⟩
            · simp only [] at hstep
              split at hstep
              · cases hstep; exact ⟨[], by simp, List.nodup_nil, by simp⟩
              · split at hstep
                · cases hstep; exact ⟨[], by simp, List.nodup_nil, by simp⟩
                · split at hstep
                  · cases hstep
                  · rename_i new hemit
                    cases hstep
                    obtain ⟨hsub, hall⟩ :=
                      emitFuels_shape now sv dv _ row hdrv.fuel_cols new hemit
                    refine ⟨new, by simp, hkeys.sublist hsub, ?_⟩
                    intro r hr
                    obtain ⟨_, _, _, _, c, hc, hq⟩ := hall r hr
                    exact ⟨c, hc, hq⟩
          · cases hstep; exact ⟨[], by simp, List.nodup_nil, by simp⟩

/-- **C10.**  (1) The keys of the `fuel_cols` mapping built from a header
row are duplicate-free; (2) every entry `(name, j)` of the mapping points
at a string cell of the row stripping to `name` in the fuel range
`3 ≤ j < len(row)` with *no later column of the row* carrying the same
name — i.e. only the rightmost column of a repeated fuel name is recorded;
(3) a name carried by some fuel-range column is recorded at some column;
(4) consequently a successful scan step appends at most one record per
distinct fuel-type name, each with the price read from the mapped
column. -/
theorem claim_C10 :
    (∀ row : List Cell, ((buildFuelCols row).map Prod.fst).Nodup) ∧
    (∀ (row : List Cell) (name : String) (j : Nat),
        (name, j) ∈ buildFuelCols row →
        3 ≤ j ∧ j < row.length ∧ fuelCellNamed row j name ∧
        ∀ j', j < j' → j' < row.length → ¬ fuelCellNamed row j' name) ∧
    (∀ (row : List Cell) (name : String) (j : Nat),
        3 ≤ j → j < row.length → fuelCellNamed row j name →
        ∃ j2, (name, j2) ∈ buildFuelCols row) ∧
    (∀ (ncols now : Nat) (st : ScanState) (row : List Cell) (st' : ScanState)
        (hdr : HeaderRow),
        st.header_row = some hdr →
        ((hdr.fuel_cols).map Prod.fst).Nodup →
        stepRow ncols now st row = some st' →
        ∃ new, st'.records = st.records ++ new ∧
          (new.map PriceRecord.fuel_type).Nodup ∧
          ∀ r ∈ new, ∃ c, (r.fuel_type, c) ∈ hdr.fuel_cols ∧
            pyFloatOfCell (getCell row c) = some r.price_cents_per_litre) := by
  refine ⟨?_, ?_, ?_, ?_⟩
  · intro row
    exact foldl_fuelCols_keys_nodup row _ [] List.nodup_nil
  · intro row name j hmem
    rcases foldl_fuelCols_mem row (List.range' 3 (row.length - 3)) []
        (List.pairwise_lt_range' 3 (row.length - 3)) (name, j) hmem with
      ⟨hfalse, _⟩ | ⟨hjrange, hnamed, hafter⟩
    · cases hfalse
    · obtain ⟨hj3, hjlt⟩ := List.mem_range'_1.mp hjrange
      refine ⟨hj3, by omega, hnamed, ?_⟩
      intro j' hlt hlen hnamed'
      exact hafter j' (List.mem_range'_1.mpr ⟨by omega, by omega⟩) hlt hnamed'
  · intro row name j hj3 hjlen hnamed
    exact foldl_fuelCols_complete row _ []
      (List.mem_range'_1.mpr ⟨hj3, by omega⟩) hnamed
  · intro ncols now st row st' hdr hh hkeys hstep
    exact stepRow_new_records ncols now st row st' hdr hh hkeys hstep

/-- **C10, witness**: on a header row carrying `"Diesel"` at column 3 and
`" Diesel "` (stripping to the same name) at column 4, the mapping records
the name only at the rightmost column 4, and no later column carries it. -/
theorem claim_C10_witness :
    3 ≤ 4 ∧
      4 < (([Cell.empty, Cell.empty, Cell.empty, Cell.text "Diesel",
             Cell.text " Diesel "] : List Cell)).length ∧
      fuelCellNamed [Cell.empty, Cell.empty, Cell.empty, Cell.text "Diesel",
        Cell.text " Diesel "] 4 "Diesel" ∧
      ∀ j', 4 < j' →
        j' < (([Cell.empty, Cell.empty, Cell.empty, Cell.text "Diesel",
                Cell.text " Diesel "] : List Cell)).length →
        ¬ fuelCellNamed [Cell.empty, Cell.empty, Cell.empty, Cell.text "Diesel",
            Cell.text " Diesel "] j' "Diesel" :=
  claim_C10.2.1
    [Cell.empty, Cell.empty, Cell.empty, Cell.text "Diesel", Cell.text " Diesel "]
    "Diesel" 4 (by decide)

/-! ## Claim C9: idempotent reconciliation -/

theorem keyOfVal_stripTS (r : PriceRecord) : keyOfVal (stripTS r) = identityKey r := rfl

/-- In a list with duplicate-free identity keys, at most one record
satisfies any predicate that pins the identity key. -/
theorem countP_le_one_of_nodup_keys {l : List PriceRecord}
    (h : (l.map identityKey).Nodup) (p : PriceRecord → Bool)
    (k0 : String × Date × String × String)
    (hp : ∀ r, p r = true → identityKey r = k0) :
    l.countP p ≤ 1 := by
  induction l with
  | nil => simp
  | cons r rs ih =>
    rw [List.countP_cons]
    rw [List.map_cons, List.nodup_cons] at h
    by_cases hr : p r = true
    · have hz : rs.countP p = 0 := by
        rw [List.countP_eq_zero]
        intro x hx hpx
        exact h.1 (List.mem_map.mpr ⟨x, hx, (hp x hpx).trans (hp r hr).symm⟩)
      rw [hz, if_pos hr]
    · rw [if_neg hr]
      have := ih h.2
      omega

/-- Every identity key present in the input survives the dedup. -/
theorem dropDupKeepLast_mem_of_key {l : List PriceRecord}
    {k : String × Date × String × String} (hk : ∃ x ∈ l, identityKey x = k) :
    ∃ r ∈ dropDupKeepLast l, identityKey r = k := by
  obtain ⟨x, hx, hxk⟩ := hk
  have hxf : x ∈ l.filter (fun r => identityKey r = k) :=
    List.mem_filter.mpr ⟨hx, by simp [hxk]⟩
  cases hlast : (l.filter (fun r => identityKey r = k)).getLast? with
  | none =>
    rw [List.getLast?_eq_none_iff] at hlast
    rw [hlast] at hxf
    cases hxf
  | some y =>
    have hy : y ∈ (dropDupKeepLast l).filter (fun r => identityKey r = k) := by
      rw [dropDupKeepLast_filter_key l k, hlast]
      exact List.mem_singleton.mpr rfl
    have hy' := List.mem_filter.mp hy
    exact ⟨y, hy'.1, by simpa using hy'.2⟩

/-- **C9.**  Reconciling a history whose identity tuples are duplicate-free
with an incoming batch that only repeats records already present (same
identity tuple and same values, the scraped timestamp aside) returns the
history unchanged up to `scraped_timestamp`: the multiset of value tuples
is exactly that of the history (hence the same size), and any record whose
identity occurs in the incoming batch is taken from the incoming batch
(carrying the latest run's timestamp). -/
theorem claim_C9 (H inc : List PriceRecord)
    (hH : (H.map identityKey).Nodup)
    (hinc : ∀ r ∈ inc, ∃ h ∈ H, stripTS r = stripTS h) :
    List.Perm ((reconcile H inc).map stripTS) (H.map stripTS) ∧
    (reconcile H inc).length = H.length ∧
    (∀ r ∈ reconcile H inc,
      (∃ i ∈ inc, identityKey i = identityKey r) → r ∈ inc) := by
  have hpart3 : ∀ r ∈ reconcile H inc,
      (∃ i ∈ inc, identityKey i = identityKey r) → r ∈ inc := by
    rintro r hr ⟨i, hi, hik⟩
    have hrmem : r ∈ (dropDupKeepLast (H ++ inc)).filter
        (fun x => identityKey x = identityKey r) :=
      List.mem_filter.mpr ⟨hr, by simp⟩
    rw [dropDupKeepLast_filter_key (H ++ inc) (identityKey r)] at hrmem
    have hincfil : inc.filter (fun x => identityKey x = identityKey r) ≠ [] := by
      intro hnil
      have hif : i ∈ inc.filter (fun x => identityKey x = identityKey r) :=
        List.mem_filter.mpr ⟨hi, by simp [hik]⟩
      rw [hnil] at hif
      cases hif
    rw [List.filter_append, List.getLast?_append_of_ne_nil _ hincfil] at hrmem
    cases hlast : (inc.filter (fun x => identityKey x = identityKey r)).getLast? with
    | none =>
      rw [hlast] at hrmem
      cases hrmem
    | some x =>
      rw [hlast] at hrmem
      have hrx : r = x := by simpa using hrmem
      have hx : x ∈ inc.filter (fun xx => identityKey xx = identityKey r) :=
        List.mem_of_mem_getLast? hlast
      exact hrx ▸ (List.mem_filter.mp hx).1
  have hiff : ∀ v, (∃ r ∈ reconcile H inc, stripTS r = v) ↔ (∃ h ∈ H, stripTS h = v) := by
    intro v
    constructor
    · rintro ⟨r, hr, rfl⟩
      rcases List.mem_append.mp (dropDupKeepLast_subset hr) with hrH | hrI
      · exact ⟨r, hrH, rfl⟩
      · obtain ⟨h, hh, hsh⟩ := hinc r hrI
        exact ⟨h, hh, hsh.symm⟩
    · rintro ⟨h, hh, rfl⟩
      obtain ⟨r, hr, hrk⟩ := dropDupKeepLast_mem_of_key
        (l := H ++ inc) (k := identityKey h)
        ⟨h, List.mem_append_left inc hh, rfl⟩
      refine ⟨r, hr, ?_⟩
      rcases List.mem_append.mp (dropDupKeepLast_subset hr) with hrH | hrI
      · have : r = h := List.inj_on_of_nodup_map hH hrH hh hrk
        rw [this]
      · obtain ⟨h', hh', hsh'⟩ := hinc r hrI
        have hkk : identityKey h' = identityKey h := by
          rw [← keyOfVal_stripTS h', ← hsh', keyOfVal_stripTS r, hrk]
        have : h' = h := List.inj_on_of_nodup_map hH hh' hh hkk
        rw [hsh', this]
  have hperm : List.Perm ((reconcile H inc).map stripTS) (H.map stripTS) := by
    rw [List.perm_iff_count]
    intro v
    show ((reconcile H inc).map stripTS).countP (fun x => decide (x = v)) =
      (H.map stripTS).countP (fun x => decide (x = v))
    rw [List.countP_map, List.countP_map]
    show (reconcile H inc).countP (fun r => decide (stripTS r = v)) =
      H.countP (fun r => decide (stripTS r = v))
    have hres_nodup : ((reconcile H inc).map identityKey).Nodup :=
      dropDupKeepLast_nodup_keys (H ++ inc)
    have hkey : ∀ r : PriceRecord, decide (stripTS r = v) = true →
        identityKey r = keyOfVal v := by
      intro r hr
      rw [← keyOfVal_stripTS r, of_decide_eq_true hr]
    have h1 : (reconcile H inc).countP (fun r => decide (stripTS r = v)) ≤ 1 :=
      countP_le_one_of_nodup_keys hres_nodup _ (keyOfVal v) hkey
    have h2 : H.countP (fun r => decide (stripTS r = v)) ≤ 1 :=
      countP_le_one_of_nodup_keys hH _ (keyOfVal v) hkey
    have hpos : 0 < (reconcile H inc).countP (fun r => decide (stripTS r = v)) ↔
        0 < H.countP (fun r => decide (stripTS r = v)) := by
      rw [List.countP_pos_iff, List.countP_pos_iff]
      constructor
      · rintro ⟨r, hr, hrv⟩
        obtain ⟨h, hh, hhv⟩ := (hiff v).mp ⟨r, hr, of_decide_eq_true hrv⟩
        exact ⟨h, hh, decide_eq_true hhv⟩
      · rintro ⟨h, hh, hhv⟩
        obtain ⟨r, hr, hrv⟩ := (hiff v).mpr ⟨h, hh, of_decide_eq_true hhv⟩
        exact ⟨r, hr, decide_eq_true hrv⟩
    by_cases hc : 0 < (reconcile H inc).countP (fun r => decide (stripTS r = v))
    · have hc2 := hpos.mp hc
      omega
    · have hc2 : ¬ 0 < H.countP (fun r => decide (stripTS r = v)) :=
        fun hgt => hc (hpos.mpr hgt)
      omega
  refine ⟨hperm, ?_, hpart3⟩
  have := hperm.length_eq
  simpa using this

/-- **C9, witness** at a concrete one-record run: re-ingesting the same
fact leaves the history the same size and values, with the timestamp taken
from the incoming record. -/
theorem claim_C9_witness :
    ((c9Hist.map identityKey).Nodup ∧
      ∀ r ∈ c9Inc, ∃ h ∈ c9Hist, stripTS r = stripTS h) ∧
    (List.Perm ((reconcile c9Hist c9Inc).map stripTS) (c9Hist.map stripTS) ∧
      (reconcile c9Hist c9Inc).length = c9Hist.length ∧
      ∀ r ∈ reconcile c9Hist c9Inc,
        (∃ i ∈ c9Inc, identityKey i = identityKey r) → r ∈ c9Inc) :=
  ⟨⟨by decide, by decide⟩, claim_C9 c9Hist c9Inc (by decide) (by decide)⟩

/-! ## Claims C2 and C3: the parser on malformed and scenario input -/

/-- **C2, counterexample.**  The claim says the parser never raises and
always returns normally.  On `raisingGrid` — a grid that is a perfectly
shaped sheet except that the single populated price cell holds the text
`"price on application"` — the scan reaches `float(price)` on that cell and
the `ValueError` propagates out of `parse_bp_pricing` (modelled as `none`),
so the parser does not return normally on every input grid. -/
theorem claim_C2_counterexample : parse_bp_pricing 0 raisingGrid = none := by rfl

/-- **C2, amended.**  The row-level leniency the claim describes does hold:
on a sheet at least three columns wide, any row that matches none of the
section-header, column-header, or data-row shapes is silently skipped — the
scan state is returned unchanged and no exception is raised.  (What the
original claim wrongly added is that the parser *never* raises: a row that
*does* match the data-row shape raises when a populated price cell is
non-numeric text or a date, and on a sheet narrower than three columns any
row that reaches the `row[2]` test raises `KeyError`.) -/
theorem claim_C2_amended (ncols now : Nat) (st : ScanState) (row : List Cell)
    (h3 : 3 ≤ ncols)
    (hsec : isSectionShape row = false)
    (hhdr : isHeaderShape row = false)
    (hdata : isDataShape st row = false) :
    stepRow ncols now st row = some st := by
  unfold stepRow
  cases hna : isna (getCell row 0) with
  | true => simp [hna]
  | false =>
    simp only [hna, Bool.false_eq_true, if_false, hsec, if_neg (Nat.not_lt.mpr h3), hhdr]
    cases hcs : st.current_state with
    | none => rfl
    | some s =>
      cases hhr : st.header_row with
      | none => rfl
      | some hdr =>
        cases hc0 : getCell row 0 with
        | date d =>
          by_cases hs : s = ""
          · simp [hs]
          · exfalso
            simp only [isDataShape, hcs, hhr, hc0, Option.isSome_some] at hdata
            simp [hs] at hdata
        | empty => rfl
        | text t => rfl
        | num q => rfl

/-- **C2, witness for the amended theorem** at a concrete unmatched row: a
row with stray text in a second column is neither a section header (other
cells not all empty), nor a column header (no `"Terminal"` at column 2),
nor a data row (first cell is not a date), and the scan skips it leaving
the state unchanged. -/
theorem claim_C2_amended_witness :
    (3 ≤ 3 ∧
      isSectionShape [Cell.text "X", Cell.text "Y"] = false ∧
      isHeaderShape [Cell.text "X", Cell.text "Y"] = false ∧
      isDataShape { current_state := none, header_row := none, records := [] }
        [Cell.text "X", Cell.text "Y"] = false) ∧
    stepRow 3 7 { current_state := none, header_row := none, records := [] }
        [Cell.text "X", Cell.text "Y"] =
      some { current_state := none, header_row := none, records := [] } :=
  ⟨⟨by decide, by decide, by decide, by decide⟩,
    claim_C2_amended 3 7 _ _ (by decide) (by decide) (by decide) (by decide)⟩

/-- **C3, counterexample.**  On the spec's scenario grid the parser outputs
*no* records, not two: the column-header row `[null, null, "Terminal", ...]`
has an empty first cell, so the very first check of the loop
(`if pd.isna(row[0]): continue`) skips it before header detection can run;
`header_row` is never set and the data row is not recognized. -/
theorem claim_C3_counterexample :
    parse_bp_pricing 0 scenarioGrid = some [] ∧
    parse_bp_pricing 0 scenarioGrid ≠
      some [{ state := "Queensland", effective_date := mkDate 2024 1 10,
              terminal := "Eagle Farm", fuel_type := "Unleaded 91",
              price_cents_per_litre := 1899 / 10, scraped_timestamp := 0 },
            { state := "Queensland", effective_date := mkDate 2024 1 10,
              terminal := "Eagle Farm", fuel_type := "Diesel",
              price_cents_per_litre := 1955 / 10, scraped_timestamp := 0 }] := by
  refine ⟨rfl, ?_⟩
  intro h
  exact List.noConfusion (Option.some.inj h)

/-- **C3, amended.**  With the single forced change — the header row's
first cell is non-null (`"Effective Date"`, as in the real sheet) so the
empty-first-cell rule does not discard it — the parser outputs exactly the
two claimed records: state `"Queensland"`, effective date 2024-01-10,
terminal `"Eagle Farm"`, one record with fuel `"Unleaded 91"` and price
189.9 and one with fuel `"Diesel"` and price 195.5, in that order. -/
theorem claim_C3_amended :
    parse_bp_pricing 0 scenarioGridFixed =
      some [{ state := "Queensland", effective_date := mkDate 2024 1 10,
              terminal := "Eagle Farm", fuel_type := "Unleaded 91",
              price_cents_per_litre := 1899 / 10, scraped_timestamp := 0 },
            { state := "Queensland", effective_date := mkDate 2024 1 10,
              terminal := "Eagle Farm", fuel_type := "Diesel",
              price_cents_per_litre := 1955 / 10, scraped_timestamp := 0 }] := by
  rfl

end BPPricing
